import Mathlib

/-!
Verification of the live state synchronization engine of `beads-tui`.

The definitions below are a shallow embedding of the Python sources:
  * `src/beads_tui/models.py`        — the `Issue` record (fields used by the view),
  * `src/beads_tui/mixins/live_reload.py` — `diff_issues` and the debounce scheduler,
  * `src/beads_tui/app.py`           — filtering, sorting, table reconciliation,
                                       selection relocation and the status bar.

Python dictionaries are modelled as association lists with CPython
insertion semantics (assigning to an existing key updates the value in
place and keeps the key's position; a new key is appended).  Python's
stable `list.sort` (Timsort) is modelled by `List.mergeSort`, which has
the same extensional behaviour: sorted by the comparison, ties kept in
input order; `reverse=True` is modelled by flipping the comparison,
which preserves ties in input order exactly as CPython does.
-/

namespace BeadsTui

/-- Model of `beads_tui.models.Issue` (`models.py`): the fields consumed by
`diff_issues`, the filter/sort pipeline and the table cell renderers.
Python strings are `String`, Python ints are `Int`. -/
structure Issue where
  id : String := ""
  title : String := ""
  status : String := ""
  priority : Int := 2
  issue_type : String := ""
  owner : String := ""
  assignee : String := ""
  created_at : String := ""
  updated_at : String := ""
  labels : List String := []
  dependency_count : Int := 0
  dependent_count : Int := 0
deriving DecidableEq

/-- The ids of a list of issues, in order. -/
def idsOf (l : List Issue) : List String := l.map Issue.id

/-- One assignment `d[issue.id] = issue` on a CPython dict modelled as an
association list: an existing key is updated in place (its position kept),
a new key is appended at the end. -/
def updEntry (i : Issue) (p : String × Issue) : String × Issue :=
  if p.1 == i.id then (p.1, i) else p

/-- Insert one issue into the dict, CPython-style. -/
def dictInsert (m : List (String × Issue)) (i : Issue) : List (String × Issue) :=
  if m.any (fun p => p.1 == i.id) then m.map (updEntry i)
  else m ++ [(i.id, i)]

/-- The dict comprehension in `diff_issues`. -/
def buildMap (l : List Issue) : List (String × Issue) :=
  l.foldl dictInsert []

/-- Dict lookup `m[k]` / `k in m`, as an `Option`. -/
def mapLookup (m : List (String × Issue)) (k : String) : Option Issue :=
  (m.find? (fun p => p.1 == k)).map (·.2)

/-- The keys of a modelled dict, in iteration order. -/
def keysOf (m : List (String × Issue)) : List String := m.map Prod.fst

/-- The last issue of `l` carrying id `k` (the value a CPython dict
comprehension keeps for a duplicated key). -/
def lastById (l : List Issue) (k : String) : Option Issue :=
  match l with
  | [] => none
  | i :: t =>
    match lastById t k with
    | some j => some j
    | none => if i.id == k then some i else none

/-- The `updated_at` of the last occurrence of id `k` in `l`. -/
def lastUpd (l : List Issue) (k : String) : Option String :=
  (lastById l k).map Issue.updated_at

/-- Predicate for the `added` branch of the loop in `diff_issues`:
the id is not in the old map. -/
def addPred (om : List (String × Issue)) (p : String × Issue) : Bool :=
  (mapLookup om p.1).isNone

/-- Predicate for the `changed` branch of the loop in `diff_issues`:
the id is in the old map and the `updated_at` differ. -/
def chgPred (om : List (String × Issue)) (p : String × Issue) : Bool :=
  match mapLookup om p.1 with
  | some o => p.2.updated_at != o.updated_at
  | none => false

/-- One iteration of the `for issue_id, issue in new_map.items()` loop of
`diff_issues` (`live_reload.py` lines 37–41), acting on the
`(added, changed)` accumulator. -/
def diffStep (om : List (String × Issue)) (ac : List Issue × List Issue)
    (p : String × Issue) : List Issue × List Issue :=
  match mapLookup om p.1 with
  | none => (ac.1 ++ [p.2], ac.2)
  | some o => if p.2.updated_at ≠ o.updated_at then (ac.1, ac.2 ++ [p.2]) else ac

/-- Model of `diff_issues` (`live_reload.py` lines 21–45): build id→issue
dicts for both lists, classify every entry of the new dict as added or
changed, and collect the old-map keys missing from the new map. -/
def diff_issues (old new : List Issue) :
    List Issue × List Issue × List String :=
  let old_map := buildMap old
  let new_map := buildMap new
  let ac := new_map.foldl (diffStep old_map) ([], [])
  let removed_ids := (old_map.filter (fun p => (mapLookup new_map p.1).isNone)).map (·.1)
  (ac.1, ac.2, removed_ids)

/-- The `added` component of `diff_issues`. -/
def diffAdded (old new : List Issue) : List Issue := (diff_issues old new).1

/-- The `changed` component of `diff_issues`. -/
def diffChanged (old new : List Issue) : List Issue := (diff_issues old new).2.1

/-- The `removed_ids` component of `diff_issues`. -/
def diffRemoved (old new : List Issue) : List String := (diff_issues old new).2.2

/-- Ids of the `added` component. -/
def addedIds (old new : List Issue) : List String := idsOf (diffAdded old new)

/-- Ids of the `changed` component. -/
def changedIds (old new : List Issue) : List String := idsOf (diffChanged old new)

/-! ### Lookup and key lemmas for the dict model -/

theorem mapLookup_nil (k : String) : mapLookup [] k = none := rfl

theorem mapLookup_eq_none_iff {m : List (String × Issue)} {k : String} :
    mapLookup m k = none ↔ k ∉ keysOf m := by
  simp only [mapLookup, Option.map_eq_none', List.find?_eq_none, keysOf, List.mem_map]
  constructor
  · rintro h ⟨p, hp, hk⟩
    exact absurd (beq_iff_eq.mpr hk) (h p hp)
  · intro h p hp
    simp only [beq_iff_eq]
    intro hk
    exact h ⟨p, hp, hk⟩

theorem mapLookup_isSome_iff {m : List (String × Issue)} {k : String} :
    (mapLookup m k).isSome = true ↔ k ∈ keysOf m := by
  rw [Option.isSome_iff_ne_none, ne_eq, mapLookup_eq_none_iff, not_not]

theorem mapLookup_eq_some_mem {m : List (String × Issue)} {k : String} {v : Issue}
    (h : mapLookup m k = some v) : (k, v) ∈ m := by
  simp only [mapLookup, Option.map_eq_some'] at h
  obtain ⟨p, hp, hv⟩ := h
  have hm := List.mem_of_find?_eq_some hp
  have hk : p.1 = k := by simpa [beq_iff_eq] using List.find?_some hp
  cases p
  subst hv hk
  simpa using hm

theorem updEntry_fst (i : Issue) (p : String × Issue) : (updEntry i p).1 = p.1 := by
  simp only [updEntry]; split <;> rfl

theorem mapLookup_cons (p : String × Issue) (t : List (String × Issue)) (k : String) :
    mapLookup (p :: t) k = if p.1 = k then some p.2 else mapLookup t k := by
  unfold mapLookup
  by_cases h : p.1 = k
  · have hb : (p.1 == k) = true := by simp [h]
    simp [List.find?, hb, h]
  · have hb : (p.1 == k) = false := by simp [h]
    simp [List.find?, hb, h]

theorem mapLookup_append (m₁ m₂ : List (String × Issue)) (k : String) :
    mapLookup (m₁ ++ m₂) k = (mapLookup m₁ k).or (mapLookup m₂ k) := by
  unfold mapLookup
  rw [List.find?_append]
  cases List.find? (fun p => p.1 == k) m₁ <;> rfl

theorem mapLookup_map_updEntry_ne {m : List (String × Issue)} {i : Issue} {k : String}
    (h : k ≠ i.id) : mapLookup (m.map (updEntry i)) k = mapLookup m k := by
  induction m with
  | nil => rfl
  | cons p t ih =>
    rw [List.map_cons, mapLookup_cons, mapLookup_cons, updEntry_fst, ih]
    by_cases hpk : p.1 = k
    · rw [if_pos hpk, if_pos hpk]
      have hne : (p.1 == i.id) = false := by
        simp only [beq_eq_false_iff_ne, ne_eq, hpk]
        exact h
      simp [updEntry, hne]
    · rw [if_neg hpk, if_neg hpk]

theorem mapLookup_map_updEntry_eq {m : List (String × Issue)} {i : Issue}
    (h : m.any (fun p => p.1 == i.id) = true) :
    mapLookup (m.map (updEntry i)) i.id = some i := by
  induction m with
  | nil => simp at h
  | cons p t ih =>
    rw [List.map_cons, mapLookup_cons, updEntry_fst]
    by_cases hpk : p.1 = i.id
    · rw [if_pos hpk]
      have hv : (updEntry i p).2 = i := by simp [updEntry, hpk]
      rw [hv]
    · rw [if_neg hpk]
      apply ih
      simp only [List.any_cons, Bool.or_eq_true, beq_iff_eq] at h
      rcases h with h | h
      · exact absurd h hpk
      · exact h

theorem mapLookup_dictInsert (m : List (String × Issue)) (i : Issue) (k : String) :
    mapLookup (dictInsert m i) k = if k = i.id then some i else mapLookup m k := by
  unfold dictInsert
  by_cases hany : m.any (fun p => p.1 == i.id) = true
  · rw [if_pos hany]
    by_cases hk : k = i.id
    · rw [if_pos hk]
      subst hk
      exact mapLookup_map_updEntry_eq hany
    · rw [if_neg hk]
      exact mapLookup_map_updEntry_ne hk
  · rw [if_neg hany, mapLookup_append]
    have hsing : mapLookup [(i.id, i)] k = if k = i.id then some i else none := by
      rw [mapLookup_cons]
      by_cases hk : k = i.id
      · rw [if_pos hk.symm, if_pos hk]
      · rw [if_neg (Ne.symm hk), if_neg hk]
        rfl
    by_cases hk : k = i.id
    · rw [if_pos hk]
      subst hk
      have hnone : mapLookup m i.id = none := by
        rw [mapLookup_eq_none_iff]
        intro hmem
        simp only [keysOf, List.mem_map] at hmem
        obtain ⟨p, hp, hkp⟩ := hmem
        exact hany (List.any_eq_true.mpr ⟨p, hp, by simp [hkp]⟩)
      rw [hnone, Option.none_or, hsing, if_pos rfl]
    · rw [if_neg hk, hsing, if_neg hk, Option.or_none]

theorem lastById_mem {l : List Issue} {k : String} {i : Issue}
    (h : lastById l k = some i) : i ∈ l ∧ i.id = k := by
  induction l with
  | nil => simp [lastById] at h
  | cons a t ih =>
    simp only [lastById] at h
    cases ht : lastById t k with
    | some j =>
      rw [ht] at h
      cases h
      obtain ⟨hm, hk⟩ := ih ht
      exact ⟨List.mem_cons_of_mem _ hm, hk⟩
    | none =>
      rw [ht] at h
      by_cases hak : a.id = k
      · rw [hak] at h
        simp only [beq_self_eq_true, if_true, Option.some.injEq] at h
        subst h
        exact ⟨List.mem_cons_self _ _, hak⟩
      · simp [beq_iff_eq, hak] at h

theorem lastById_eq_none_iff {l : List Issue} {k : String} :
    lastById l k = none ↔ k ∉ idsOf l := by
  induction l with
  | nil => simp [lastById, idsOf]
  | cons i t ih =>
    simp only [lastById, idsOf, List.map_cons, List.mem_cons]
    cases h : lastById t k with
    | some j =>
      obtain ⟨hm, hk⟩ := lastById_mem h
      constructor
      · intro hc; cases hc
      · intro hc
        exact absurd (Or.inr (hk ▸ List.mem_map_of_mem Issue.id hm)) hc
    | none =>
      have ht : k ∉ idsOf t := ih.mp h
      simp only [idsOf] at ht
      by_cases hik : i.id = k
      · constructor
        · intro hc
          rw [hik] at hc
          simp at hc
        · intro hc
          exact absurd (Or.inl hik.symm) hc
      · simp only [beq_iff_eq, hik, if_false]
        constructor
        · intro _ hc
          rcases hc with hc | hc
          · exact hik hc.symm
          · exact ht hc
        · intro _
          trivial

theorem lastById_isSome_iff {l : List Issue} {k : String} :
    (lastById l k).isSome = true ↔ k ∈ idsOf l := by
  rw [Option.isSome_iff_ne_none, ne_eq, lastById_eq_none_iff, not_not]

theorem mapLookup_foldl_dictInsert (l : List Issue) (m : List (String × Issue))
    (k : String) :
    mapLookup (l.foldl dictInsert m) k =
      match lastById l k with
      | some j => some j
      | none => mapLookup m k := by
  induction l generalizing m with
  | nil => simp [lastById]
  | cons i t ih =>
    simp only [List.foldl_cons, lastById]
    rw [ih]
    cases ht : lastById t k with
    | some j => rfl
    | none =>
      rw [mapLookup_dictInsert]
      by_cases hk : k = i.id
      · subst hk
        simp
      · have hb : (i.id == k) = false := by
          simp only [beq_eq_false_iff_ne, ne_eq]
          exact Ne.symm hk
        simp [hk, hb]

theorem mapLookup_buildMap (l : List Issue) (k : String) :
    mapLookup (buildMap l) k = lastById l k := by
  rw [buildMap, mapLookup_foldl_dictInsert]
  cases lastById l k <;> rfl

theorem mem_keysOf_buildMap {l : List Issue} {k : String} :
    k ∈ keysOf (buildMap l) ↔ k ∈ idsOf l := by
  rw [← mapLookup_isSome_iff, mapLookup_buildMap, lastById_isSome_iff]

theorem wellKeyed_dictInsert {m : List (String × Issue)} {i : Issue}
    (h : ∀ p ∈ m, p.2.id = p.1) : ∀ p ∈ dictInsert m i, p.2.id = p.1 := by
  intro p hp
  unfold dictInsert at hp
  split at hp
  · obtain ⟨q, hq, hpq⟩ := List.mem_map.mp hp
    subst hpq
    simp only [updEntry]
    split
    · next he => exact (beq_iff_eq.mp he).symm
    · exact h q hq
  · rcases List.mem_append.mp hp with hq | hq
    · exact h p hq
    · simp only [List.mem_singleton] at hq
      subst hq
      rfl

theorem wellKeyed_buildMap {l : List Issue} : ∀ p ∈ buildMap l, p.2.id = p.1 := by
  have key : ∀ (l : List Issue) (m : List (String × Issue)),
      (∀ p ∈ m, p.2.id = p.1) → ∀ p ∈ l.foldl dictInsert m, p.2.id = p.1 := by
    intro l
    induction l with
    | nil => intro m h; exact h
    | cons i t ih => intro m h; exact ih _ (wellKeyed_dictInsert h)
  exact key l [] (by intro p hp; cases hp)

theorem keysOf_dictInsert_nodup {m : List (String × Issue)} {i : Issue}
    (h : (keysOf m).Nodup) : (keysOf (dictInsert m i)).Nodup := by
  unfold dictInsert
  split
  · have hkeys : keysOf (m.map (updEntry i)) = keysOf m := by
      unfold keysOf
      rw [List.map_map]
      exact List.map_congr_left (fun p _ => updEntry_fst i p)
    rw [hkeys]
    exact h
  · next hany =>
    unfold keysOf
    rw [List.map_append]
    refine List.Nodup.append h (List.nodup_singleton _) ?_
    intro a ha hb
    simp only [List.map_cons, List.map_nil, List.mem_singleton] at hb
    subst hb
    obtain ⟨p, hp, hpk⟩ := List.mem_map.mp ha
    exact hany (List.any_eq_true.mpr ⟨p, hp, by simp [hpk]⟩)

theorem keysOf_buildMap_nodup (l : List Issue) : (keysOf (buildMap l)).Nodup := by
  have key : ∀ m, (keysOf m).Nodup → (keysOf (l.foldl dictInsert m)).Nodup := by
    induction l with
    | nil => intro m h; exact h
    | cons i t ih => intro m h; exact ih _ (keysOf_dictInsert_nodup h)
  exact key [] (by simp [keysOf])

theorem mapLookup_of_mem_nodup {m : List (String × Issue)} {p : String × Issue}
    (hnd : (keysOf m).Nodup) (hp : p ∈ m) : mapLookup m p.1 = some p.2 := by
  induction m with
  | nil => cases hp
  | cons q t ih =>
    rw [mapLookup_cons]
    unfold keysOf at hnd
    rw [List.map_cons, List.nodup_cons] at hnd
    rcases List.mem_cons.mp hp with rfl | hpt
    · rw [if_pos rfl]
    · by_cases hq : q.1 = p.1
      · exfalso
        exact hnd.1 (hq ▸ List.mem_map_of_mem Prod.fst hpt)
      · rw [if_neg hq]
        exact ih hnd.2 hpt

theorem mem_buildMap_lookup {l : List Issue} {p : String × Issue}
    (hp : p ∈ buildMap l) : mapLookup (buildMap l) p.1 = some p.2 :=
  mapLookup_of_mem_nodup (keysOf_buildMap_nodup l) hp

/-! ### Characterization of the added/changed accumulator loop -/

theorem diffStep_none (om : List (String × Issue)) (ac : List Issue × List Issue)
    (p : String × Issue) (h : mapLookup om p.1 = none) :
    diffStep om ac p = (ac.1 ++ [p.2], ac.2) := by
  unfold diffStep
  rw [h]

theorem diffStep_some_ne (om : List (String × Issue)) (ac : List Issue × List Issue)
    (p : String × Issue) (o : Issue) (h : mapLookup om p.1 = some o)
    (hu : p.2.updated_at ≠ o.updated_at) :
    diffStep om ac p = (ac.1, ac.2 ++ [p.2]) := by
  unfold diffStep
  rw [h]
  simp [hu]

theorem diffStep_some_eq (om : List (String × Issue)) (ac : List Issue × List Issue)
    (p : String × Issue) (o : Issue) (h : mapLookup om p.1 = some o)
    (hu : p.2.updated_at = o.updated_at) :
    diffStep om ac p = ac := by
  unfold diffStep
  rw [h]
  simp [hu]

theorem foldl_diffStep_eq (om : List (String × Issue)) (entries : List (String × Issue)) :
    ∀ (a c : List Issue),
      entries.foldl (diffStep om) (a, c) =
        (a ++ (entries.filter (addPred om)).map (·.2),
         c ++ (entries.filter (chgPred om)).map (·.2)) := by
  induction entries with
  | nil => intro a c; simp
  | cons p t ih =>
    intro a c
    rw [List.foldl_cons]
    cases ho : mapLookup om p.1 with
    | none =>
      have ha : addPred om p = true := by simp [addPred, ho]
      have hc : chgPred om p = false := by simp [chgPred, ho]
      rw [diffStep_none om (a, c) p ho, ih]
      simp [List.filter_cons, ha, hc, List.append_assoc]
    | some o =>
      by_cases hu : p.2.updated_at = o.updated_at
      · have ha : addPred om p = false := by simp [addPred, ho]
        have hc : chgPred om p = false := by
          simp only [chgPred, ho, bne_eq_false_iff_eq]
          exact hu
        rw [diffStep_some_eq om (a, c) p o ho hu, ih]
        simp [List.filter_cons, ha, hc]
      · have ha : addPred om p = false := by simp [addPred, ho]
        have hc : chgPred om p = true := by
          simp only [chgPred, ho, bne_iff_ne, ne_eq]
          exact hu
        rw [diffStep_some_ne om (a, c) p o ho hu, ih]
        simp [List.filter_cons, ha, hc, List.append_assoc]

theorem diff_issues_eq (old new : List Issue) :
    diff_issues old new =
      (((buildMap new).filter (addPred (buildMap old))).map (·.2),
       ((buildMap new).filter (chgPred (buildMap old))).map (·.2),
       ((buildMap old).filter (fun p => (mapLookup (buildMap new) p.1).isNone)).map (·.1)) := by
  simp only [diff_issues]
  rw [foldl_diffStep_eq]
  simp

theorem diffAdded_eq (old new : List Issue) :
    diffAdded old new = ((buildMap new).filter (addPred (buildMap old))).map (·.2) := by
  unfold diffAdded
  rw [diff_issues_eq]

theorem diffChanged_eq (old new : List Issue) :
    diffChanged old new = ((buildMap new).filter (chgPred (buildMap old))).map (·.2) := by
  unfold diffChanged
  rw [diff_issues_eq]

theorem diffRemoved_eq (old new : List Issue) :
    diffRemoved old new =
      ((buildMap old).filter (fun p => (mapLookup (buildMap new) p.1).isNone)).map (·.1) := by
  unfold diffRemoved
  rw [diff_issues_eq]

theorem idsOf_eq_map (l : List Issue) : idsOf l = l.map Issue.id := rfl

/-! ### Id-level classification of the diff -/

theorem mem_valueIds_filter_buildMap_iff {l : List Issue} {P : (String × Issue) → Bool}
    {k : String} :
    k ∈ (((buildMap l).filter P).map (·.2)).map Issue.id ↔
      ∃ i, lastById l k = some i ∧ P (k, i) = true := by
  rw [List.map_map]
  constructor
  · intro hk
    obtain ⟨p, hp, hpk⟩ := List.mem_map.mp hk
    rw [List.mem_filter] at hp
    obtain ⟨hpm, hpred⟩ := hp
    have hkey : p.2.id = p.1 := wellKeyed_buildMap p hpm
    have hk1 : p.1 = k := by
      simpa [Function.comp, hkey] using hpk
    have hlook : lastById l k = some p.2 := by
      rw [← mapLookup_buildMap, ← hk1]
      exact mem_buildMap_lookup hpm
    refine ⟨p.2, hlook, ?_⟩
    have hpe : (k, p.2) = p := by
      rw [← hk1]
    rw [hpe]
    exact hpred
  · rintro ⟨i, hl, hP⟩
    have hmem : (k, i) ∈ buildMap l := by
      apply mapLookup_eq_some_mem
      rw [mapLookup_buildMap]
      exact hl
    have : (k, i) ∈ (buildMap l).filter P := List.mem_filter.mpr ⟨hmem, hP⟩
    refine List.mem_map.mpr ⟨(k, i), this, ?_⟩
    simp [(lastById_mem hl).2]

theorem mem_keys_filter_buildMap_iff {l : List Issue} {P : (String × Issue) → Bool}
    {k : String} :
    k ∈ ((buildMap l).filter P).map Prod.fst ↔
      ∃ i, lastById l k = some i ∧ P (k, i) = true := by
  constructor
  · intro hk
    obtain ⟨p, hp, hpk⟩ := List.mem_map.mp hk
    rw [List.mem_filter] at hp
    obtain ⟨hpm, hpred⟩ := hp
    have hlook : lastById l k = some p.2 := by
      rw [← mapLookup_buildMap, ← hpk]
      exact mem_buildMap_lookup hpm
    refine ⟨p.2, hlook, ?_⟩
    have hpe : (k, p.2) = p := by
      rw [← hpk]
    rw [hpe]
    exact hpred
  · rintro ⟨i, hl, hP⟩
    have hmem : (k, i) ∈ buildMap l := by
      apply mapLookup_eq_some_mem
      rw [mapLookup_buildMap]
      exact hl
    exact List.mem_map.mpr ⟨(k, i), List.mem_filter.mpr ⟨hmem, hP⟩, rfl⟩

theorem mem_addedIds_iff {old new : List Issue} {k : String} :
    k ∈ addedIds old new ↔ k ∈ idsOf new ∧ k ∉ idsOf old := by
  unfold addedIds
  rw [diffAdded_eq, idsOf_eq_map, mem_valueIds_filter_buildMap_iff]
  constructor
  · rintro ⟨i, hl, hP⟩
    refine ⟨lastById_isSome_iff.mp (by rw [hl]; rfl), ?_⟩
    simp only [addPred, mapLookup_buildMap] at hP
    rw [← lastById_eq_none_iff]
    exact Option.isNone_iff_eq_none.mp (by simpa using hP)
  · rintro ⟨hn, ho⟩
    obtain ⟨i, hi⟩ := Option.isSome_iff_exists.mp (lastById_isSome_iff.mpr hn)
    refine ⟨i, hi, ?_⟩
    simp only [addPred, mapLookup_buildMap]
    rw [lastById_eq_none_iff.mpr ho]
    rfl

theorem mem_changedIds_iff {old new : List Issue} {k : String} :
    k ∈ changedIds old new ↔
      k ∈ idsOf old ∧ k ∈ idsOf new ∧ lastUpd old k ≠ lastUpd new k := by
  unfold changedIds
  rw [diffChanged_eq, idsOf_eq_map, mem_valueIds_filter_buildMap_iff]
  constructor
  · rintro ⟨i, hl, hP⟩
    simp only [chgPred, mapLookup_buildMap] at hP
    cases holk : lastById old k with
    | none => rw [holk] at hP; simp at hP
    | some o =>
      rw [holk] at hP
      have hne : i.updated_at ≠ o.updated_at := by simpa [bne_iff_ne] using hP
      refine ⟨lastById_isSome_iff.mp (by rw [holk]; rfl),
              lastById_isSome_iff.mp (by rw [hl]; rfl), ?_⟩
      unfold lastUpd
      rw [holk, hl]
      simp only [Option.map_some', ne_eq, Option.some.injEq]
      exact fun he => hne he.symm
  · rintro ⟨hoM, hnM, hupd⟩
    obtain ⟨i, hi⟩ := Option.isSome_iff_exists.mp (lastById_isSome_iff.mpr hnM)
    obtain ⟨o, ho⟩ := Option.isSome_iff_exists.mp (lastById_isSome_iff.mpr hoM)
    refine ⟨i, hi, ?_⟩
    simp only [chgPred, mapLookup_buildMap, ho]
    unfold lastUpd at hupd
    rw [hi, ho] at hupd
    simp only [Option.map_some', ne_eq, Option.some.injEq] at hupd
    simp only [bne_iff_ne, ne_eq]
    exact fun he => hupd he.symm

theorem mem_removedIds_iff {old new : List Issue} {k : String} :
    k ∈ diffRemoved old new ↔ k ∈ idsOf old ∧ k ∉ idsOf new := by
  rw [diffRemoved_eq, mem_keys_filter_buildMap_iff]
  constructor
  · rintro ⟨i, hl, hP⟩
    refine ⟨lastById_isSome_iff.mp (by rw [hl]; rfl), ?_⟩
    simp only [mapLookup_buildMap] at hP
    rw [← lastById_eq_none_iff]
    exact Option.isNone_iff_eq_none.mp (by simpa using hP)
  · rintro ⟨ho, hn⟩
    obtain ⟨i, hi⟩ := Option.isSome_iff_exists.mp (lastById_isSome_iff.mpr ho)
    refine ⟨i, hi, ?_⟩
    simp only [mapLookup_buildMap]
    rw [lastById_eq_none_iff.mpr hn]
    rfl

theorem buildMap_values_mem {l : List Issue} {p : String × Issue}
    (hp : p ∈ buildMap l) : p.2 ∈ l :=
  (lastById_mem (by rw [← mapLookup_buildMap]; exact mem_buildMap_lookup hp)).1

theorem addedIds_eq_keys (old new : List Issue) :
    addedIds old new = ((buildMap new).filter (addPred (buildMap old))).map Prod.fst := by
  unfold addedIds
  rw [diffAdded_eq, idsOf_eq_map, List.map_map]
  exact List.map_congr_left (fun p hp => by
    simpa [Function.comp] using wellKeyed_buildMap p (List.mem_filter.mp hp).1)

theorem changedIds_eq_keys (old new : List Issue) :
    changedIds old new = ((buildMap new).filter (chgPred (buildMap old))).map Prod.fst := by
  unfold changedIds
  rw [diffChanged_eq, idsOf_eq_map, List.map_map]
  exact List.map_congr_left (fun p hp => by
    simpa [Function.comp] using wellKeyed_buildMap p (List.mem_filter.mp hp).1)

theorem nodup_addedIds (old new : List Issue) : (addedIds old new).Nodup := by
  rw [addedIds_eq_keys]
  exact List.Nodup.sublist ((List.filter_sublist _).map Prod.fst)
    (keysOf_buildMap_nodup new)

theorem nodup_changedIds (old new : List Issue) : (changedIds old new).Nodup := by
  rw [changedIds_eq_keys]
  exact List.Nodup.sublist ((List.filter_sublist _).map Prod.fst)
    (keysOf_buildMap_nodup new)

theorem nodup_removedIds (old new : List Issue) : (diffRemoved old new).Nodup := by
  rw [diffRemoved_eq]
  exact List.Nodup.sublist ((List.filter_sublist _).map Prod.fst)
    (keysOf_buildMap_nodup old)

theorem mem_diffAdded_last {old new : List Issue} {a : Issue}
    (ha : a ∈ diffAdded old new) : lastById new a.id = some a := by
  rw [diffAdded_eq] at ha
  obtain ⟨p, hp, hpa⟩ := List.mem_map.mp ha
  obtain ⟨hpm, _⟩ := List.mem_filter.mp hp
  have hkey : p.2.id = p.1 := wellKeyed_buildMap p hpm
  subst hpa
  rw [hkey, ← mapLookup_buildMap]
  exact mem_buildMap_lookup hpm

theorem mem_diffChanged_last {old new : List Issue} {c : Issue}
    (hc : c ∈ diffChanged old new) :
    lastById new c.id = some c ∧
      ∃ o, lastById old c.id = some o ∧ c.updated_at ≠ o.updated_at := by
  rw [diffChanged_eq] at hc
  obtain ⟨p, hp, hpc⟩ := List.mem_map.mp hc
  obtain ⟨hpm, hpred⟩ := List.mem_filter.mp hp
  have hkey : p.2.id = p.1 := wellKeyed_buildMap p hpm
  subst hpc
  refine ⟨by rw [hkey, ← mapLookup_buildMap]; exact mem_buildMap_lookup hpm, ?_⟩
  simp only [chgPred, mapLookup_buildMap] at hpred
  cases ho : lastById old p.1 with
  | none => rw [ho] at hpred; simp at hpred
  | some o =>
    rw [ho] at hpred
    exact ⟨o, by rw [hkey]; exact ho, by simpa [bne_iff_ne] using hpred⟩

/-- Concrete issues used by the closed witness theorems. -/
def issueA : Issue :=
  { id := "bd-1", title := "First", status := "open", priority := 1,
    updated_at := "2024-01-01" }

/-- Second concrete issue, distinct id. -/
def issueB : Issue :=
  { id := "bd-2", title := "Second", status := "closed", priority := 2,
    updated_at := "2024-02-02" }

/-- Same id as `issueDupB`, older revision. -/
def issueDupA : Issue :=
  { id := "dup", title := "Old rev", status := "open", priority := 1,
    updated_at := "1" }

/-- Same id as `issueDupA`, newer revision. -/
def issueDupB : Issue :=
  { id := "dup", title := "New rev", status := "open", priority := 1,
    updated_at := "2" }

/-- C1: for every pair of issue lists, the three outputs of `diff_issues` are
pairwise disjoint by id, and membership of an id in each output is exactly
characterized: `added` iff present in new and absent from old, `changed` iff
present in both with differing `updated_at` (of the last occurrence, which is
what the dict comprehension keeps), `removed` iff present in old and absent
from new; every id of old ∪ new that is in none of the three is present in
both with equal `updated_at`. -/
theorem diff_partition_law (old new : List Issue) (k : String) :
    (¬ (k ∈ addedIds old new ∧ k ∈ changedIds old new)) ∧
    (¬ (k ∈ addedIds old new ∧ k ∈ diffRemoved old new)) ∧
    (¬ (k ∈ changedIds old new ∧ k ∈ diffRemoved old new)) ∧
    (k ∈ addedIds old new ↔ k ∈ idsOf new ∧ k ∉ idsOf old) ∧
    (k ∈ changedIds old new ↔
      k ∈ idsOf old ∧ k ∈ idsOf new ∧ lastUpd old k ≠ lastUpd new k) ∧
    (k ∈ diffRemoved old new ↔ k ∈ idsOf old ∧ k ∉ idsOf new) ∧
    ((k ∈ idsOf old ∨ k ∈ idsOf new) →
      k ∈ addedIds old new ∨ k ∈ changedIds old new ∨ k ∈ diffRemoved old new ∨
        (k ∈ idsOf old ∧ k ∈ idsOf new ∧ lastUpd old k = lastUpd new k)) := by
  refine ⟨?_, ?_, ?_, mem_addedIds_iff, mem_changedIds_iff, mem_removedIds_iff, ?_⟩
  · rintro ⟨ha, hc⟩
    exact (mem_addedIds_iff.mp ha).2 (mem_changedIds_iff.mp hc).1
  · rintro ⟨ha, hr⟩
    exact (mem_addedIds_iff.mp ha).2 (mem_removedIds_iff.mp hr).1
  · rintro ⟨hc, hr⟩
    exact (mem_removedIds_iff.mp hr).2 (mem_changedIds_iff.mp hc).2.1
  · intro hk
    by_cases ho : k ∈ idsOf old
    · by_cases hn : k ∈ idsOf new
      · by_cases hu : lastUpd old k = lastUpd new k
        · exact Or.inr (Or.inr (Or.inr ⟨ho, hn, hu⟩))
        · exact Or.inr (Or.inl (mem_changedIds_iff.mpr ⟨ho, hn, hu⟩))
      · exact Or.inr (Or.inr (Or.inl (mem_removedIds_iff.mpr ⟨ho, hn⟩)))
    · rcases hk with hk | hk
      · exact absurd hk ho
      · exact Or.inl (mem_addedIds_iff.mpr ⟨hk, ho⟩)

/-- Closed witness for C1: on `old = [issueA]`, `new = [issueB]`, the
characterization puts the new id into `added`. -/
theorem diff_partition_law_witness :
    "bd-2" ∈ addedIds [issueA] [issueB] :=
  ((diff_partition_law [issueA] [issueB] "bd-2").2.2.2.1).mpr (by decide)

/-- C7: diffing a list against itself yields three empty collections. -/
theorem diff_idempotent (S : List Issue) : diff_issues S S = ([], [], []) := by
  rw [diff_issues_eq]
  have hadd : (buildMap S).filter (addPred (buildMap S)) = [] := by
    rw [List.filter_eq_nil_iff]
    intro p hp
    simp [addPred, mem_buildMap_lookup hp]
  have hchg : (buildMap S).filter (chgPred (buildMap S)) = [] := by
    rw [List.filter_eq_nil_iff]
    intro p hp
    simp [chgPred, mem_buildMap_lookup hp]
  have hrem : (buildMap S).filter
      (fun p => (mapLookup (buildMap S) p.1).isNone) = [] := by
    rw [List.filter_eq_nil_iff]
    intro p hp
    simp [mem_buildMap_lookup hp]
  rw [hadd, hchg, hrem]
  rfl

/-- Under unique ids, the dict comprehension keeps every issue in order. -/
theorem buildMap_of_nodup {l : List Issue} (h : (idsOf l).Nodup) :
    buildMap l = l.map (fun i => (i.id, i)) := by
  have key : ∀ (l : List Issue) (m : List (String × Issue)),
      (idsOf l).Nodup → (∀ i ∈ l, i.id ∉ keysOf m) →
      l.foldl dictInsert m = m ++ l.map (fun i => (i.id, i)) := by
    intro l
    induction l with
    | nil => intro m _ _; simp
    | cons i t ih =>
      intro m hnd hdisj
      rw [List.foldl_cons]
      have hins : dictInsert m i = m ++ [(i.id, i)] := by
        unfold dictInsert
        rw [if_neg]
        intro hany
        obtain ⟨p, hp, hpk⟩ := List.any_eq_true.mp hany
        exact hdisj i (List.mem_cons_self i t)
          ((beq_iff_eq.mp hpk) ▸ List.mem_map_of_mem Prod.fst hp)
      rw [hins]
      rw [idsOf_eq_map, List.map_cons, List.nodup_cons] at hnd
      rw [ih (m ++ [(i.id, i)]) hnd.2 ?_, List.append_assoc]
      · rfl
      · intro j hj hjk
        unfold keysOf at hjk
        rw [List.map_append] at hjk
        rcases List.mem_append.mp hjk with hk | hk
        · exact hdisj j (List.mem_cons_of_mem i hj) hk
        · simp only [List.map_cons, List.map_nil, List.mem_singleton] at hk
          exact hnd.1 (hk ▸ List.mem_map_of_mem Issue.id hj)
  have := key l [] h (by intro i _ hk; simp [keysOf] at hk)
  simpa [buildMap] using this

/-- C8: diffing against an empty old list classifies everything as added:
no changed issues, no removed ids, every added issue comes from `S`, every
id of `S` is covered, and with unique ids `added` is exactly `S`. -/
theorem diff_empty_old (S : List Issue) :
    diffChanged [] S = [] ∧ diffRemoved [] S = [] ∧
    (∀ a ∈ diffAdded [] S, a ∈ S) ∧
    (∀ i ∈ S, i.id ∈ addedIds [] S) ∧
    ((idsOf S).Nodup → diffAdded [] S = S) := by
  refine ⟨?_, ?_, ?_, ?_, ?_⟩
  · rw [diffChanged_eq]
    have : (buildMap S).filter (chgPred (buildMap [])) = [] := by
      rw [List.filter_eq_nil_iff]
      intro p hp
      simp [chgPred, buildMap, mapLookup]
    rw [this]
    rfl
  · rw [diffRemoved_eq]
    rfl
  · intro a ha
    rw [diffAdded_eq] at ha
    obtain ⟨p, hp, hpa⟩ := List.mem_map.mp ha
    exact hpa ▸ buildMap_values_mem (List.mem_filter.mp hp).1
  · intro i hi
    exact mem_addedIds_iff.mpr ⟨List.mem_map_of_mem Issue.id hi, by simp [idsOf]⟩
  · intro hnd
    rw [diffAdded_eq]
    have hfil : (buildMap S).filter (addPred (buildMap [])) = buildMap S := by
      rw [List.filter_eq_self]
      intro p _
      simp [addPred, buildMap, mapLookup]
    rw [hfil, buildMap_of_nodup hnd, List.map_map]
    have hid : List.map ((fun (x : String × Issue) => x.2) ∘ fun i => (i.id, i)) S =
        List.map id S :=
      List.map_congr_left (fun i _ => rfl)
    rw [hid, List.map_id]

/-- Closed witness for C8 at a concrete two-element list with distinct ids. -/
theorem diff_empty_old_witness :
    diffAdded [] [issueA, issueB] = [issueA, issueB] :=
  (diff_empty_old [issueA, issueB]).2.2.2.2 (by decide)

/-- C10: `diff_issues` deduplicates by id: each id appears at most once
across the three outputs, and the representative kept for a duplicated id is
its last occurrence in the respective input list (so its classification is
determined by that last occurrence). -/
theorem diff_dedup_last_occurrence (old new : List Issue) :
    (addedIds old new ++ changedIds old new ++ diffRemoved old new).Nodup ∧
    (∀ a ∈ diffAdded old new, lastById new a.id = some a) ∧
    (∀ c ∈ diffChanged old new, lastById new c.id = some c ∧
        ∃ o, lastById old c.id = some o ∧ c.updated_at ≠ o.updated_at) ∧
    (∀ k ∈ diffRemoved old new,
        (∃ o, lastById old k = some o) ∧ lastById new k = none) := by
  refine ⟨?_, fun a ha => mem_diffAdded_last ha, fun c hc => mem_diffChanged_last hc, ?_⟩
  · rw [List.append_assoc, List.nodup_append]
    refine ⟨nodup_addedIds old new, ?_, ?_⟩
    · rw [List.nodup_append]
      refine ⟨nodup_changedIds old new, nodup_removedIds old new, ?_⟩
      intro k hkc hkr
      exact (mem_removedIds_iff.mp hkr).2 (mem_changedIds_iff.mp hkc).2.1
    · intro k hka hk
      rcases List.mem_append.mp hk with hkc | hkr
      · exact (mem_addedIds_iff.mp hka).2 (mem_changedIds_iff.mp hkc).1
      · exact (mem_addedIds_iff.mp hka).2 (mem_removedIds_iff.mp hkr).1
  · intro k hkr
    obtain ⟨ho, hn⟩ := mem_removedIds_iff.mp hkr
    refine ⟨?_, lastById_eq_none_iff.mpr hn⟩
    obtain ⟨o, hoo⟩ := Option.isSome_iff_exists.mp (lastById_isSome_iff.mpr ho)
    exact ⟨o, hoo⟩

/-- Closed witness for C10: with a duplicated id in the new list, the
classification is driven by the last occurrence. -/
theorem diff_dedup_last_occurrence_witness :
    lastById [issueDupA, issueDupB] issueDupB.id = some issueDupB :=
  ((diff_dedup_last_occurrence [issueDupA] [issueDupA, issueDupB]).2.2.1
    issueDupB (by decide)).1

/-! ### Cell rendering (`app.py` priority/status display helpers) -/

/-- A styled text span, modelling one `rich.text.Text` fragment as
(text, style). -/
abbrev Span := String × String

/-- A rendered cell: the list of spans a `rich.text.Text` value carries
(`Text.assemble` concatenates spans). -/
abbrev CellVal := List Span

/-- Model of `_styled` (`app.py`): a single-span text. -/
def styledText (value style : String) : CellVal := [(value, style)]

/-- Model of `_PRIORITY_STYLES.get(priority, ("P?", ""))`. -/
def priorityStyles (p : Int) : String × String :=
  if p = 0 then ("P0", "bold red")
  else if p = 1 then ("P1", "dark_orange")
  else if p = 2 then ("P2", "yellow")
  else if p = 3 then ("P3", "dodger_blue")
  else if p = 4 then ("P4", "dim")
  else ("P?", "")

/-- Model of `_priority_cell`. -/
def priorityCell (p : Int) : CellVal :=
  styledText (priorityStyles p).1 (priorityStyles p).2

/-- Model of `_STATUS_SYMBOLS.get(status, status)`. -/
def statusSymbol (s : String) : String :=
  if s = "open" then "○"
  else if s = "in_progress" then "◐"
  else if s = "blocked" then "●"
  else if s = "deferred" then "❄"
  else if s = "closed" then "✓"
  else s

/-- Model of the style map inside `_status_cell`. -/
def statusStyle (s : String) : String :=
  if s = "open" then "green"
  else if s = "in_progress" then "cyan"
  else if s = "blocked" then "bold red"
  else if s = "deferred" then "blue"
  else if s = "closed" then "dim"
  else ""

/-- Model of `_status_cell`. -/
def statusCell (s : String) : CellVal := styledText (statusSymbol s) (statusStyle s)

/-- Model of `_title_cell`: the title styled with the priority's style. -/
def titleCell (title : String) (p : Int) : CellVal :=
  styledText title (priorityStyles p).2

/-- Model of `_short_date`: empty stays empty, otherwise the first ten
characters (`dt[:10]`). -/
def shortDate (dt : String) : String :=
  if dt = "" then "" else dt.take 10

/-- Model of the Python expression `issue.owner or issue.assignee or ""`. -/
def ownerOrAssignee (i : Issue) : String :=
  if i.owner ≠ "" then i.owner
  else if i.assignee ≠ "" then i.assignee
  else ""

/-- Model of `_deps_cell`: dependency counts with directional arrows. -/
def depsCell (i : Issue) : CellVal :=
  let parts : List Span :=
    if i.dependency_count > 0 then
      [("→" ++ toString i.dependency_count, "dodger_blue")]
    else []
  let parts :=
    if i.dependent_count > 0 then
      (if parts ≠ [] then parts ++ [(" ", "")] else parts) ++
        [("←" ++ toString i.dependent_count, "dark_orange")]
    else parts
  if parts = [] then [("", "")] else parts

/-- The keys of `AVAILABLE_COLUMNS` (`app.py`). -/
def availableColumnKeys : List String :=
  ["id", "priority", "status", "type", "title", "assignee", "updated",
   "created", "labels", "deps"]

/-- The getter of each column of `AVAILABLE_COLUMNS`, by column key. -/
def columnGetter (key : String) (i : Issue) : CellVal :=
  if key = "id" then styledText i.id "bold"
  else if key = "priority" then priorityCell i.priority
  else if key = "status" then statusCell i.status
  else if key = "type" then styledText i.issue_type ""
  else if key = "title" then titleCell i.title i.priority
  else if key = "assignee" then styledText (ownerOrAssignee i) ""
  else if key = "updated" then styledText (shortDate i.updated_at) ""
  else if key = "created" then styledText (shortDate i.created_at) ""
  else if key = "labels" then styledText (String.intercalate ", " i.labels) ""
  else if key = "deps" then depsCell i
  else [("", "")]

/-- Model of `BeadsTuiApp._get_row_cells`: cells for the active columns;
an unknown column key contributes an empty cell. -/
def getRowCells (cols : List String) (i : Issue) : List CellVal :=
  cols.map (fun key =>
    if key ∈ availableColumnKeys then columnGetter key i else [("", "")])

/-! ### Sort keys (`_sort_key_for_column`) -/

/-- The heterogeneous sort key returned by `_sort_key_for_column`: a Python
int or str (within a single sort all keys have the same shape, since the
column is fixed). -/
inductive SKey where
  | int (i : Int)
  | str (s : String)
deriving DecidableEq

/-- Model of the `order` dict inside the `status` branch of
`_sort_key_for_column` (`order.get(status, 99)`). -/
def statusOrder (s : String) : Int :=
  if s = "open" then 0
  else if s = "in_progress" then 1
  else if s = "blocked" then 2
  else if s = "deferred" then 3
  else if s = "closed" then 4
  else 99

/-- Model of `_sort_key_for_column` (`app.py` lines 123–146). -/
def sortKeyForColumn (colKey : String) (issue : Issue) : SKey :=
  if colKey = "id" then .str issue.id
  else if colKey = "priority" then .int issue.priority
  else if colKey = "status" then .int (statusOrder issue.status)
  else if colKey = "type" then .str issue.issue_type
  else if colKey = "title" then .str issue.title.toLower
  else if colKey = "assignee" then .str (ownerOrAssignee issue).toLower
  else if colKey = "updated" then .str issue.updated_at
  else if colKey = "created" then .str issue.created_at
  else if colKey = "labels" then .str (String.intercalate ", " issue.labels)
  else if colKey = "deps" then .int issue.dependency_count
  else .str ""

/-- Comparison on sort keys: Python `<=` on two ints or two strs.  The
mixed cases never arise within one sort (the column is fixed); they are
given a fixed answer to keep the relation total. -/
def skeyLe : SKey → SKey → Bool
  | .int a, .int b => decide (a ≤ b)
  | .str a, .str b => decide (a ≤ b)
  | .int _, .str _ => true
  | .str _, .int _ => false

/-- The comparison `list.sort(key=..., reverse=...)` sorts by: ties (equal
keys) are kept in input order by the stable sort in both directions
(`reverse=True` reverses comparisons, not the output). -/
def sortLe (col : String) (rev : Bool) (a b : Issue) : Bool :=
  if rev then skeyLe (sortKeyForColumn col b) (sortKeyForColumn col a)
  else skeyLe (sortKeyForColumn col a) (sortKeyForColumn col b)

/-- The sort comparison as a decidable relation. -/
def sortRel (col : String) (rev : Bool) (a b : Issue) : Prop :=
  sortLe col rev a b = true

instance sortRelDecidable (col : String) (rev : Bool) : DecidableRel (sortRel col rev) :=
  fun a b => inferInstanceAs (Decidable (sortLe col rev a b = true))

/-! ### Filters (`_apply_filters_and_sort`) -/

/-- Model of the `_current_filters` dict as consumed by
`_apply_filters_and_sort`.  `priority` holds the value after the `int()`
conversion; a missing or non-convertible value is `none` (both skip the
filter). -/
structure Filters where
  search : Option String := none
  statuses : Option (List String) := none
  priority : Option Int := none
  type_ : Option String := none
deriving DecidableEq

/-- Substring test on char lists: Python's `needle in hay`. -/
def charsContains (needle : List Char) : List Char → Bool
  | [] => needle.isEmpty
  | c :: t => needle.isPrefixOf (c :: t) || charsContains needle t

/-- Python's `q in s` on strings. -/
def strContains (hay q : String) : Bool := charsContains q.data hay.data

/-- The search predicate of `_apply_filters_and_sort`: the lowercased query
against lowercased title, id, owner, assignee and type. -/
def matchesSearch (q : String) (i : Issue) : Bool :=
  strContains i.title.toLower q || strContains i.id.toLower q ||
  strContains i.owner.toLower q || strContains i.assignee.toLower q ||
  strContains i.issue_type.toLower q

/-- Status filter: `statuses=None` means show everything. -/
def statusFilter (f : Filters) (l : List Issue) : List Issue :=
  match f.statuses with
  | none => l
  | some sts => l.filter (fun i => sts.contains i.status)

/-- Text search filter: skipped when the search value is missing or empty
(Python truthiness of `search`). -/
def searchFilter (f : Filters) (l : List Issue) : List Issue :=
  match f.search with
  | none => l
  | some s => if s = "" then l else l.filter (matchesSearch s.toLower)

/-- Priority filter: skipped when no (convertible) priority is set. -/
def priorityFilter (f : Filters) (l : List Issue) : List Issue :=
  match f.priority with
  | none => l
  | some pval => l.filter (fun i => i.priority == pval)

/-- Type filter: skipped when the type value is missing or empty (Python
truthiness of `type_`). -/
def typeFilter (f : Filters) (l : List Issue) : List Issue :=
  match f.type_ with
  | none => l
  | some t => if t = "" then l else l.filter (fun i => i.issue_type == t)

/-- The filter chain of `_apply_filters_and_sort`, in source order:
status, search, priority, type. -/
def filteredIssues (issues : List Issue) (f : Filters) : List Issue :=
  typeFilter f (priorityFilter f (searchFilter f (statusFilter f issues)))

/-- Model of `BeadsTuiApp._apply_filters_and_sort` (`app.py` lines 475–520)
as a function of its inputs: filter then stable-sort.  Python's stable
`list.sort(key=..., reverse=...)` is modelled by the stable
`insertionSort` under `sortRel`; since the relation is total and
transitive (`sortLe_total`, `sortLe_trans`) the stable sort is
extensionally unique, so this denotes Timsort's output exactly. -/
def applyFiltersAndSort (issues : List Issue) (f : Filters) (col : String)
    (rev : Bool) : List Issue :=
  List.insertionSort (sortRel col rev) (filteredIssues issues f)

/-! ### Widget models (the textual `DataTable` and `StatusBar` as used by
`app.py`) -/

/-- One data-table row: its key (the issue id passed to `add_row(key=...)`)
and its rendered cells, positionally matching the active columns. -/
structure TableRow where
  key : String
  cells : List CellVal
deriving DecidableEq

/-- Model of the textual `DataTable` as used by `app.py`: the ordered rows
and the cursor row index. -/
structure Table where
  rows : List TableRow := []
  cursorRow : Nat := 0
deriving DecidableEq

/-- Model of `DataTable.row_count`. -/
def Table.rowCount (t : Table) : Nat := t.rows.length

/-- Model of `DataTable.remove_row(key)` wrapped in the host's
`try/except`: the row with that key is removed; a missing key is a no-op
(the exception is swallowed). -/
def Table.removeRow (t : Table) (key : String) : Table :=
  { t with rows := t.rows.filter (fun r => r.key != key) }

/-- Model of `DataTable.update_cell(row_key, column, value)` wrapped in the
host's `try/except`: the cell at the given column position of the row with
that key is replaced; a missing key is a no-op. -/
def Table.updateCell (t : Table) (key : String) (colIdx : Nat) (v : CellVal) :
    Table :=
  { t with rows := t.rows.map (fun r =>
      if r.key == key then { r with cells := r.cells.set colIdx v } else r) }

/-- Model of `DataTable.clear()`: all rows removed and the cursor reset to
the top (the widget resets its cursor coordinate on clear). -/
def Table.clear (_t : Table) : Table := { rows := [], cursorRow := 0 }

/-- Model of `DataTable.add_row(*cells, key=...)`: the row is appended; the
cursor does not move. -/
def Table.addRow (t : Table) (r : TableRow) : Table :=
  { t with rows := t.rows ++ [r] }

/-- Model of `DataTable.move_cursor(row=idx)`. -/
def Table.moveCursor (t : Table) (idx : Nat) : Table :=
  { t with cursorRow := idx }

/-- Model of the `StatusBar` widget state set by `_update_status_bar`. -/
structure StatusBar where
  issue_count : Nat := 0
  total_count : Nat := 0
  refresh_time : String := ""
  filter_active : Bool := false
  view_name : String := "Issues"
deriving DecidableEq

/-- Model of `BdError` (`bd_client.py`): the exception hierarchy collapsed
to one carrier, since the host code only catches the base class. -/
structure BdError where
  msg : String := ""
deriving DecidableEq

/-! ### Application state (`BeadsTuiApp`) -/

/-- The mutable fields of `BeadsTuiApp` touched by the refresh cycle:
`_issues`, `_filtered_issues`, the issue table, the status bar,
`_current_filters`, `_sort_column`, `_sort_reverse`, `_active_columns`. -/
structure AppState where
  issues : List Issue := []
  filtered : List Issue := []
  table : Table := {}
  statusBar : StatusBar := {}
  filters : Filters := {}
  sortColumn : String := "priority"
  sortReverse : Bool := false
  activeColumns : List String := ["id", "priority", "status", "type", "title", "updated"]
deriving DecidableEq

/-- Model of the call `self._apply_filters_and_sort()`: recompute
`_filtered_issues` from `_issues` and the current filter/sort settings. -/
def applyFiltersAndSortState (st : AppState) : AppState :=
  { st with filtered :=
      applyFiltersAndSort st.issues st.filters st.sortColumn st.sortReverse }

/-- Model of the `has_filter` expression of `_update_status_bar`
(`any(v for k, v in ...)`): Python truthiness of each filter value — a
non-`None` statuses set counts only when non-empty, a priority counts only
when non-zero, strings only when non-empty. -/
def hasActiveFilter (f : Filters) : Bool :=
  (match f.search with | some s => s ≠ "" | none => false) ||
  (match f.statuses with | some sts => decide (sts ≠ []) | none => false) ||
  (match f.priority with | some p => decide (p ≠ 0) | none => false) ||
  (match f.type_ with | some t => t ≠ "" | none => false)

/-- Model of `BeadsTuiApp._update_status_bar` (`app.py` lines 542–558);
`now` is the formatted current time passed in from the environment. -/
def updateStatusBar (st : AppState) (now : String) : AppState :=
  { st with statusBar :=
      { issue_count := st.filtered.length
        total_count := st.issues.length
        refresh_time := now
        filter_active := hasActiveFilter st.filters
        view_name := if st.filters.statuses = none then "All Issues" else "Filtered" } }

/-- The saved selection of `_populate_table`: the key of the row under the
cursor, when the table is non-empty and the coordinate resolves (the
`try/except` yields `None` otherwise). -/
def readSelectedId (t : Table) : Option String :=
  if t.rowCount > 0 then (t.rows[t.cursorRow]?).map (·.key) else none

/-- The cursor-restore loop of `_populate_table`: `if selected_id:` then
move the cursor to the first filtered issue with that id; nothing happens
when the id is absent. -/
def restoreCursor (t : Table) (filtered : List Issue) :
    Option String → Table
  | some sid =>
    if sid ≠ "" then
      match filtered.findIdx? (fun i => i.id == sid) with
      | some idx => t.moveCursor idx
      | none => t
    else t
  | none => t

/-- The table produced by `_populate_table`: clear the table, add one row
per filtered issue, then restore the cursor from the previously selected
row key. -/
def populatedTable (st : AppState) : Table :=
  restoreCursor
    (st.filtered.foldl
      (fun t i => t.addRow { key := i.id, cells := getRowCells st.activeColumns i })
      st.table.clear)
    st.filtered
    (readSelectedId st.table)

/-- Model of `BeadsTuiApp._populate_table` (`app.py` lines 522–540): read
the selected row key from the cursor, clear the table, add one row per
filtered issue, then move the cursor back to the selected id if it is still
present (no relocation happens when it is not). -/
def populateTable (st : AppState) : AppState :=
  { st with table := populatedTable st }

/-- Replace every cell of the row for `issue` (the inner
`for idx, col_key in enumerate(self._active_columns): table.update_cell`
loop of `refresh_data`). -/
def updateRowAllCells (cols : List String) (t : Table) (issue : Issue) : Table :=
  let cells := getRowCells cols issue
  (List.range cols.length).foldl
    (fun t idx => t.updateCell issue.id idx (cells.getD idx [("", "")])) t

/-- Model of `BeadsTuiApp.refresh_data` (`app.py` lines 429–469), given the
outcome of `client.list_issues` and the formatted current time.  A raised
`BdError` aborts the cycle; an empty diff returns early; otherwise the held
issues are replaced, filters/sort re-applied, removed rows dropped, changed
rows updated cell by cell, and a full repopulation happens only when
`added` is non-empty; finally the status bar is updated. -/
def refreshData (st : AppState) (fetch : Except BdError (List Issue))
    (now : String) : AppState :=
  match fetch with
  | .error _ => st
  | .ok newIssues =>
    let d := diff_issues st.issues newIssues
    let added := d.1
    let changed := d.2.1
    let removedIds := d.2.2
    if added = [] ∧ changed = [] ∧ removedIds = [] then st
    else
      let st := { st with issues := newIssues }
      let st := applyFiltersAndSortState st
      let table := removedIds.foldl (fun t rid => t.removeRow rid) st.table
      let changedIds := changed.map Issue.id
      let table := st.filtered.foldl
        (fun t issue =>
          if changedIds.contains issue.id then
            updateRowAllCells st.activeColumns t issue
          else t) table
      let st := { st with table := table }
      let st := if added ≠ [] then populateTable st else st
      updateStatusBar st now

/-- Model of `BeadsTuiApp._load_issues` (`app.py` lines 416–427), the full
(re)load used on mount and by the forced refresh action: a raised `BdError`
is swallowed and replaced by an empty issue list, then filters/sort are
re-applied, the table fully repopulated and the status bar updated. -/
def loadIssues (st : AppState) (fetch : Except BdError (List Issue))
    (now : String) : AppState :=
  let issues := match fetch with | .ok l => l | .error _ => []
  let st := { st with issues := issues }
  let st := applyFiltersAndSortState st
  let st := populateTable st
  updateStatusBar st now

/-! ### Debouncer (`LiveReloadMixin._schedule_debounced_refresh`) -/

/-- Model of `_schedule_debounced_refresh` (`live_reload.py` lines
157–165): cancel the pending handle, if any, and schedule a fresh one at
`now + D`.  The state is the deadline of the single pending
`asyncio.TimerHandle` (there is at most one, by construction). -/
def scheduleDebounced (D now : Nat) (_pending : Option Nat) : Option Nat :=
  some (now + D)

/-- Run a sequence of signal times (ascending) against the debouncer:
before handling a signal, a pending handle whose deadline has passed has
already fired (`_fire_refresh_from_watcher` clears the handle); a pending
handle whose deadline lies ahead is cancelled; then a fresh handle is
scheduled.  Returns the final pending deadline and the fire times. -/
def debounceRun (D : Nat) (pending : Option Nat) :
    List Nat → Option Nat × List Nat
  | [] => (pending, [])
  | t :: rest =>
    let fired : List Nat :=
      match pending with
      | some d => if d ≤ t then [d] else []
      | none => []
    let pr := debounceRun D (scheduleDebounced D t pending) rest
    (pr.1, fired ++ pr.2)

/-- All fire times produced by a burst of signals, including the final
pending handle firing after quiescence. -/
def debounceFires (D : Nat) (signals : List Nat) : List Nat :=
  let pr := debounceRun D none signals
  pr.2 ++ (match pr.1 with | some d => [d] | none => [])

/-! ### Basic facts about the pipeline and the table -/

theorem statusFilter_nil (f : Filters) : statusFilter f [] = [] := by
  unfold statusFilter
  cases f.statuses <;> rfl

theorem searchFilter_nil (f : Filters) : searchFilter f [] = [] := by
  unfold searchFilter
  cases f.search with
  | none => rfl
  | some s =>
    by_cases hs : s = ""
    · simp [hs]
    · simp [hs]

theorem priorityFilter_nil (f : Filters) : priorityFilter f [] = [] := by
  unfold priorityFilter
  cases f.priority <;> rfl

theorem typeFilter_nil (f : Filters) : typeFilter f [] = [] := by
  unfold typeFilter
  cases f.type_ with
  | none => rfl
  | some t =>
    by_cases ht : t = ""
    · simp [ht]
    · simp [ht]

theorem applyFiltersAndSort_nil (f : Filters) (col : String) (rev : Bool) :
    applyFiltersAndSort [] f col rev = [] := by
  unfold applyFiltersAndSort filteredIssues
  rw [statusFilter_nil, searchFilter_nil, priorityFilter_nil, typeFilter_nil]
  rfl

theorem restoreCursor_rows (t : Table) (filtered : List Issue)
    (sel : Option String) : (restoreCursor t filtered sel).rows = t.rows := by
  cases sel with
  | none => rfl
  | some sid =>
    by_cases hs : sid ≠ ""
    · cases hf : filtered.findIdx? (fun i => i.id == sid) with
      | none => simp [restoreCursor, hs, hf]
      | some idx => simp [restoreCursor, hs, hf, Table.moveCursor]
    · simp [restoreCursor, hs]

theorem foldl_addRow_rows (l : List Issue) (cols : List String) (t : Table) :
    (l.foldl (fun t i => t.addRow { key := i.id, cells := getRowCells cols i }) t).rows
      = t.rows ++ l.map (fun i => { key := i.id, cells := getRowCells cols i }) := by
  induction l generalizing t with
  | nil => simp
  | cons i rest ih =>
    rw [List.foldl_cons, ih]
    simp [Table.addRow, List.append_assoc]

theorem populateTable_rows (st : AppState) :
    (populateTable st).table.rows =
      st.filtered.map (fun i => { key := i.id, cells := getRowCells st.activeColumns i }) := by
  show (populatedTable st).rows = _
  unfold populatedTable
  rw [restoreCursor_rows, foldl_addRow_rows]
  rfl

theorem populateTable_issues (st : AppState) :
    (populateTable st).issues = st.issues := rfl

theorem populateTable_filtered (st : AppState) :
    (populateTable st).filtered = st.filtered := rfl

/-! ### C2 — failed fetch behaviour -/

/-- The concrete one-issue state used by the closed counterexamples: a
visible open issue, present both in the held list and in the table. -/
def i1open : Issue :=
  { id := "bd-1", title := "T", status := "open", priority := 1, updated_at := "5" }

/-- The same issue after an external edit: closed, with a new revision. -/
def i1closed : Issue :=
  { id := "bd-1", title := "T", status := "closed", priority := 1, updated_at := "6" }

/-- The status filter of the scenario: only open issues are visible. -/
def openOnlyFilters : Filters := { statuses := some ["open"] }

/-- The rendered table row of `i1open` under the default columns. -/
def rowOpen : TableRow :=
  { key := "bd-1",
    cells := getRowCells ["id", "priority", "status", "type", "title", "updated"] i1open }

/-- App state holding exactly `i1open`, visible and rendered. -/
def stOne : AppState :=
  { issues := [i1open], filtered := [i1open],
    table := { rows := [rowOpen], cursorRow := 0 }, filters := openOnlyFilters }

/-- C2 counterexample: the claim fails on the forced-reload fetch path.
`_load_issues` (triggered by the refresh action) swallows the `BdError` and
proceeds with an empty issue list, blanking the held list and the table,
which were non-empty before. -/
theorem fetch_failure_blanks_forced_reload :
    (loadIssues stOne (Except.error { msg := "bd failed" }) "10:00:00").issues = [] ∧
    (loadIssues stOne (Except.error { msg := "bd failed" }) "10:00:00").table.rows = [] ∧
    stOne.issues ≠ [] ∧ stOne.table.rows ≠ [] := by
  refine ⟨rfl, ?_, by decide, by decide⟩
  have hr : (loadIssues stOne (Except.error { msg := "bd failed" }) "10:00:00").table.rows
      = (populateTable (applyFiltersAndSortState { stOne with issues := [] })).table.rows := rfl
  rw [hr, populateTable_rows]
  have hf : (applyFiltersAndSortState { stOne with issues := [] }).filtered
      = applyFiltersAndSort [] stOne.filters stOne.sortColumn stOne.sortReverse := rfl
  rw [hf, applyFiltersAndSort_nil]
  rfl

/-- C2 amended: a failed fetch leaves all state unchanged on the
incremental refresh path (`refresh_data`); on the forced full reload path
(`_load_issues`), the failure is instead treated as an empty issue list and
the issue list, view list and table are rebuilt empty (blanked). -/
theorem fetch_failure_behaviour (st : AppState) (e : BdError) (now : String) :
    refreshData st (Except.error e) now = st ∧
    (loadIssues st (Except.error e) now).issues = [] ∧
    (loadIssues st (Except.error e) now).filtered = [] ∧
    (loadIssues st (Except.error e) now).table.rows = [] := by
  refine ⟨rfl, rfl, ?_, ?_⟩
  · have hf : (loadIssues st (Except.error e) now).filtered
        = applyFiltersAndSort [] st.filters st.sortColumn st.sortReverse := rfl
    rw [hf, applyFiltersAndSort_nil]
  · have hr : (loadIssues st (Except.error e) now).table.rows
        = (populateTable (applyFiltersAndSortState { st with issues := [] })).table.rows := rfl
    rw [hr, populateTable_rows]
    have hf : (applyFiltersAndSortState { st with issues := [] }).filtered
        = applyFiltersAndSort [] st.filters st.sortColumn st.sortReverse := rfl
    rw [hf, applyFiltersAndSort_nil]
    rfl

/-! ### C9 — empty diff means no view mutation -/

/-- C9: when a fetched list diffs empty against the held list, the refresh
cycle leaves the whole application state exactly as it was (early return
before any mutation, including the status bar). -/
theorem empty_diff_no_mutation (st : AppState) (new : List Issue) (now : String)
    (h : diff_issues st.issues new = ([], [], [])) :
    refreshData st (Except.ok new) now = st := by
  simp only [refreshData]
  rw [h]
  simp

/-- Closed witness for C9: refreshing `stOne` with the identical snapshot
changes nothing. -/
theorem empty_diff_no_mutation_witness :
    refreshData stOne (Except.ok [i1open]) "09:00:00" = stOne :=
  empty_diff_no_mutation stOne [i1open] "09:00:00" (by decide)

/-! ### C3 — changed record that becomes invisible under the filter -/

/-- C3: evaluation of `refresh_data` at the spec's "filtered-out on change"
scenario, demonstrating the divergence.  With `status=open` filtering, the
only issue changes from open to closed: the diff reports it as changed, the
new filtered view is empty, yet the table is left bit-for-bit as before —
the stale row for `bd-1` stays, no `remove_row`, no rebuild (the code only
rebuilds when `added` is non-empty, although its own comment says a changed
sort order should also rebuild). -/
theorem changed_invisible_row_left_stale :
    diffChanged stOne.issues [i1closed] = [i1closed] ∧
    (refreshData stOne (Except.ok [i1closed]) "12:00:00").filtered = [] ∧
    (refreshData stOne (Except.ok [i1closed]) "12:00:00").table.rows = stOne.table.rows ∧
    (refreshData stOne (Except.ok [i1closed]) "12:00:00").table.rows.map TableRow.key
      = ["bd-1"] := by
  decide

/-! ### C5 — selection relocation in `_populate_table` -/

theorem foldl_addRow_cursor (l : List Issue) (cols : List String) (t : Table) :
    (l.foldl (fun t i => t.addRow { key := i.id, cells := getRowCells cols i }) t).cursorRow
      = t.cursorRow := by
  induction l generalizing t with
  | nil => rfl
  | cons i rest ih =>
    rw [List.foldl_cons, ih]
    rfl

theorem populateTable_cursor_found (st : AppState) (sid : String) (idx : Nat)
    (hsel : readSelectedId st.table = some sid) (hne : sid ≠ "")
    (hfind : st.filtered.findIdx? (fun i => i.id == sid) = some idx) :
    (populateTable st).table.cursorRow = idx := by
  show (populatedTable st).cursorRow = idx
  unfold populatedTable
  rw [hsel]
  simp only [restoreCursor]
  rw [if_pos hne, hfind]
  rfl

theorem populateTable_cursor_not_found (st : AppState) (sid : String)
    (hsel : readSelectedId st.table = some sid) (hne : sid ≠ "")
    (hfind : st.filtered.findIdx? (fun i => i.id == sid) = none) :
    (populateTable st).table.cursorRow = 0 := by
  show (populatedTable st).cursorRow = 0
  unfold populatedTable
  rw [hsel]
  simp only [restoreCursor]
  rw [if_pos hne, hfind]
  rw [foldl_addRow_cursor]
  rfl

/-- C5 amended: after `_populate_table`, if the previously selected row key
is still present in the new filtered list, the cursor ends on that id at
its new (first) position; if the id is absent, the code performs no
relocation and the cursor ends at the top row of the freshly cleared table
(row 0), not at the previous index clamped into bounds. -/
theorem selection_relocation (st : AppState) (sid : String)
    (hsel : readSelectedId st.table = some sid) (hne : sid ≠ "") :
    (∀ idx, st.filtered.findIdx? (fun i => i.id == sid) = some idx →
      (populateTable st).table.cursorRow = idx ∧
      ((populateTable st).table.rows[idx]?).map TableRow.key = some sid) ∧
    (st.filtered.findIdx? (fun i => i.id == sid) = none →
      (populateTable st).table.cursorRow = 0) := by
  constructor
  · intro idx hfind
    refine ⟨populateTable_cursor_found st sid idx hsel hne hfind, ?_⟩
    rw [populateTable_rows, List.getElem?_map]
    obtain ⟨hlt, hp, -⟩ := List.findIdx?_eq_some_iff_getElem.mp hfind
    rw [List.getElem?_eq_getElem hlt]
    simp only [Option.map_some']
    have : st.filtered[idx].id = sid := by simpa using hp
    rw [this]
  · intro hfind
    exact populateTable_cursor_not_found st sid hsel hne hfind

/-- Issue with bare id `A`, used by the selection scenarios. -/
def issueIdA : Issue := { id := "A" }

/-- Issue with bare id `B`. -/
def issueIdB : Issue := { id := "B" }

/-- Issue with bare id `C`. -/
def issueIdC : Issue := { id := "C" }

/-- A one-column rendered row for a bare issue. -/
def rowFor (i : Issue) : TableRow := { key := i.id, cells := getRowCells ["id"] i }

/-- Old view `[A,B,C]` with the cursor on `C`; new filtered list `[A,B]`
(the selected id vanished). -/
def stVanished : AppState :=
  { filtered := [issueIdA, issueIdB],
    table := { rows := [rowFor issueIdA, rowFor issueIdB, rowFor issueIdC],
               cursorRow := 2 },
    activeColumns := ["id"] }

/-- C5 counterexample: when the selected id vanished, the claim demands the
cursor fall to the previous index clamped into bounds (here
`min 2 (2-1) = 1`), but the code leaves the cleared table's cursor at the
top: row 0. -/
theorem selection_clamp_counterexample :
    (populateTable stVanished).table.cursorRow = 0 ∧
    min stVanished.table.cursorRow (stVanished.filtered.length - 1) = 1 := by
  decide

/-- Old view `[A,B,C]` with the cursor on `B` (index 1); reordered view
`[C,A,B]` with no removals — the spec's selection-persistence scenario. -/
def stReordered : AppState :=
  { filtered := [issueIdC, issueIdA, issueIdB],
    table := { rows := [rowFor issueIdA, rowFor issueIdB, rowFor issueIdC],
               cursorRow := 1 },
    activeColumns := ["id"] }

/-- Closed witness for C5: after the reorder the cursor follows id `B` to
its new position 2. -/
theorem selection_relocation_witness :
    (populateTable stReordered).table.cursorRow = 2 ∧
    ((populateTable stReordered).table.rows[2]?).map TableRow.key = some "B" :=
  (selection_relocation stReordered "B" (by decide) (by decide)).1 2 (by decide)

/-! ### C4 — debounce coalescing -/

theorem debounceRun_nil (D : Nat) (pending : Option Nat) :
    debounceRun D pending [] = (pending, []) := rfl

theorem debounceRun_cons (D : Nat) (pending : Option Nat) (t : Nat)
    (rest : List Nat) :
    debounceRun D pending (t :: rest) =
      ((debounceRun D (some (t + D)) rest).1,
        (match pending with
         | some d => if d ≤ t then [d] else []
         | none => []) ++ (debounceRun D (some (t + D)) rest).2) := rfl

theorem debounceRun_shift {D t u : Nat} {rest : List Nat} (hlt : u < t + D) :
    debounceRun D (some (t + D)) (u :: rest) = debounceRun D none (u :: rest) := by
  rw [debounceRun_cons, debounceRun_cons]
  simp [Nat.not_le.mpr hlt]

/-- C4: a burst of N ≥ 1 change signals, each arriving strictly within the
quiet period `D` of the previous one, produces exactly one refresh fire,
scheduled one full quiet period after the last signal: every signal while a
handle is pending cancels it and schedules a fresh deadline (there is at
most one pending handle — the state is a single `Option`), so the deadline
is only pushed forward and the sole fire happens at `last + D`. -/
theorem debounce_coalescing (D : Nat) (l : List Nat) (hne : l ≠ [])
    (hchain : l.Chain' (fun a b => a ≤ b ∧ b < a + D)) :
    debounceFires D l = [l.getLastD 0 + D] := by
  induction l with
  | nil => exact absurd rfl hne
  | cons t rest ih =>
    cases rest with
    | nil => rfl
    | cons u rest' =>
      obtain ⟨⟨hle, hlt⟩, hchain'⟩ := List.chain'_cons.mp hchain
      have hrun : debounceRun D none (t :: u :: rest')
          = debounceRun D none (u :: rest') := by
        rw [debounceRun_cons D none t (u :: rest'), debounceRun_shift hlt]
        simp
      have hfires : debounceFires D (t :: u :: rest')
          = debounceFires D (u :: rest') := by
        unfold debounceFires
        rw [hrun]
      rw [hfires, ih (by simp) hchain']
      simp [List.getLastD_cons]

/-- Closed witness for C4: three signals at 0, 1, 2 with quiet period 3
coalesce into the single fire at 2 + 3 = 5. -/
theorem debounce_coalescing_witness : debounceFires 3 [0, 1, 2] = [5] := by
  have hch : List.Chain' (fun a b => a ≤ b ∧ b < a + 3) [0, 1, 2] := by
    refine List.chain'_cons.mpr ⟨⟨?_, ?_⟩, List.chain'_cons.mpr ⟨⟨?_, ?_⟩, ?_⟩⟩
    · norm_num
    · norm_num
    · norm_num
    · norm_num
    · simp
  have h := debounce_coalescing 3 [0, 1, 2] (by simp) hch
  simpa using h

/-! ### C6 — pipeline determinism and sort stability -/

theorem skeyLe_refl (k : SKey) : skeyLe k k = true := by
  cases k <;> simp [skeyLe]

theorem skeyLe_trans : ∀ a b c : SKey,
    skeyLe a b = true → skeyLe b c = true → skeyLe a c = true := by
  intro a b c hab hbc
  cases a with
  | int x =>
    cases b with
    | int y =>
      cases c with
      | int z =>
        simp only [skeyLe, decide_eq_true_eq] at *
        omega
      | str s => rfl
    | str s =>
      cases c with
      | int z => simp [skeyLe] at hbc
      | str s2 => rfl
  | str s =>
    cases b with
    | int y => simp [skeyLe] at hab
    | str s2 =>
      cases c with
      | int z => simp [skeyLe] at hbc
      | str s3 =>
        simp only [skeyLe, decide_eq_true_eq] at *
        exact le_trans hab hbc

theorem skeyLe_total : ∀ a b : SKey, (skeyLe a b || skeyLe b a) = true := by
  intro a b
  cases a with
  | int x =>
    cases b with
    | int y =>
      simp only [skeyLe, Bool.or_eq_true, decide_eq_true_eq]
      omega
    | str s => rfl
  | str s =>
    cases b with
    | int y => rfl
    | str s2 =>
      simp only [skeyLe, Bool.or_eq_true, decide_eq_true_eq]
      exact le_total s s2

theorem sortLe_trans (col : String) (rev : Bool) :
    ∀ a b c : Issue, sortLe col rev a b → sortLe col rev b c → sortLe col rev a c := by
  intro a b c hab hbc
  unfold sortLe at *
  cases rev with
  | false =>
    simp only [Bool.false_eq_true, if_false] at *
    exact skeyLe_trans _ _ _ hab hbc
  | true =>
    simp only [if_true] at *
    exact skeyLe_trans _ _ _ hbc hab

theorem sortLe_total (col : String) (rev : Bool) :
    ∀ a b : Issue, (sortLe col rev a b || sortLe col rev b a) = true := by
  intro a b
  unfold sortLe
  cases rev with
  | false =>
    simp only [Bool.false_eq_true, if_false]
    exact skeyLe_total _ _
  | true =>
    simp only [if_true]
    exact skeyLe_total _ _

/-- C6: the filter-and-sort pipeline is deterministic and stable: applying
`_apply_filters_and_sort` a second time on unchanged data, filters and sort
settings leaves the view list identical; and any two issues of the filtered
input with equal sort keys keep their relative order in the sorted output,
for either sort direction. -/
theorem pipeline_deterministic_stable :
    (∀ st : AppState,
      applyFiltersAndSortState (applyFiltersAndSortState st)
        = applyFiltersAndSortState st) ∧
    (∀ (issues : List Issue) (f : Filters) (col : String) (rev : Bool) (a b : Issue),
      List.Sublist [a, b] (filteredIssues issues f) →
      sortKeyForColumn col a = sortKeyForColumn col b →
      List.Sublist [a, b] (applyFiltersAndSort issues f col rev)) := by
  constructor
  · intro st
    rfl
  · intro issues f col rev a b hsub hkey
    have hab : sortLe col rev a b = true := by
      unfold sortLe
      cases rev with
      | false =>
        simp only [Bool.false_eq_true, if_false]
        rw [hkey]
        exact skeyLe_refl _
      | true =>
        simp only [if_true]
        rw [hkey]
        exact skeyLe_refl _
    have hpair : List.Pairwise (sortRel col rev) [a, b] := by
      simp [List.pairwise_cons, sortRel, hab]
    exact List.sublist_insertionSort hpair hsub

/-- Tied issue `X` (all fields default, equal sort keys with `tieY`). -/
def tieX : Issue := { id := "X" }

/-- Tied issue `Y`. -/
def tieY : Issue := { id := "Y" }

/-- Closed witness for C6: two issues with equal priority keys keep their
input order through the pipeline. -/
theorem pipeline_deterministic_stable_witness :
    List.Sublist [tieX, tieY] (applyFiltersAndSort [tieX, tieY] {} "priority" false) :=
  pipeline_deterministic_stable.2 [tieX, tieY] {} "priority" false tieX tieY
    (by decide) (by decide)

end BeadsTui
